import Mathlib

/-!
Shallow embedding of the club-merch server (email variant, `server` source file):
string normalization helpers, price normalization, the order/catalog/user data
model, and the request handlers for placing orders, fulfilling orders, catalog
CRUD and login.  JavaScript strings are modelled over their character lists
(ASCII fragment of `trim` / `toUpperCase` / `toLowerCase`), JS numbers over ℚ
with `none` standing for `NaN`, and the untyped JSON request fields over small
inductive types that quotient JSON values by exactly the distinctions the
handlers make.
-/

/-- ASCII whitespace recognizer, the fragment of the JS `\s` class the data uses. -/
def isWsB (c : Char) : Bool := decide ((9 ≤ c.toNat ∧ c.toNat ≤ 13) ∨ c.toNat = 32)

/-- ASCII uppercase conversion of one character, as in JS `toUpperCase`. -/
def upChar (c : Char) : Char :=
  if 97 ≤ c.toNat ∧ c.toNat ≤ 122 then Char.ofNat (c.toNat - 32) else c

/-- ASCII lowercase conversion of one character, as in JS `toLowerCase`. -/
def lowChar (c : Char) : Char :=
  if 65 ≤ c.toNat ∧ c.toNat ≤ 90 then Char.ofNat (c.toNat + 32) else c

/-- Drop trailing whitespace from a character list. -/
def dropTrail (l : List Char) : List Char := (l.reverse.dropWhile isWsB).reverse

/-- Drop leading and trailing whitespace, as in JS `String.prototype.trim`. -/
def trimChars (l : List Char) : List Char := dropTrail (l.dropWhile isWsB)

/-- JS `s.trim()`. -/
def jsTrim (s : String) : String := String.mk (trimChars s.data)

/-- JS `s.toUpperCase()` (ASCII fragment). -/
def jsUpper (s : String) : String := String.mk (s.data.map upChar)

/-- JS `s.toLowerCase()` (ASCII fragment). -/
def jsLower (s : String) : String := String.mk (s.data.map lowChar)

/-- JS `a || b` on strings: the empty string is falsy. -/
def jsOrS (a b : String) : String := if a = "" then b else a

/-- JS `v || d` where `v` is a nullable string field and `d` a string:
`null`/`undefined` and the empty string are falsy. -/
def jsOrO (v : Option String) (d : String) : Option String :=
  match v with
  | none => some d
  | some s => if s = "" then some d else some s

/-- JS `v || null` on a nullable string field: an empty string collapses to null. -/
def nzO (v : Option String) : Option String :=
  match v with
  | none => none
  | some s => if s = "" then none else some s

/-- Rounding to cents as in the source, `Math.round(x * 100) / 100`
(JS `Math.round` is floor of `x + 1/2`). -/
def roundCents (x : ℚ) : ℚ := ((Int.floor (x * 100 + 1 / 2) : ℤ) : ℚ) / 100

/-- The source's `normalizePrice` applied to a finite number: reject non-positive
or implausibly large amounts, round to cents. -/
def normalizePriceQ (q : ℚ) : Option ℚ :=
  if q ≤ 0 ∨ 10000 < q then none else some (roundCents q)

/-- The source's `normalizePrice` on a coerced number, with `none` playing `NaN`
(`Number.isFinite` fails). -/
def normalizePriceO (v : Option ℚ) : Option ℚ :=
  match v with
  | none => none
  | some q => normalizePriceQ q

/-- A JSON request value in a price position, quotiented by the distinctions
`normalizeOptionalPrice` and the PATCH handler make: JSON `null`, the empty
string, a nonempty whitespace-only string, or any other value together with its
`Number(·)` coercion (`none` for `NaN`). -/
inductive PriceInput
  | jsnull
  | emptyStr
  | wsStr
  | val (q : Option ℚ)
deriving DecidableEq

/-- The source's `normalizeOptionalPrice`: `null`/`undefined` and strings that
trim to the empty string give `null`; anything else goes through `normalizePrice`. -/
def normalizeOptionalPrice : PriceInput → Option ℚ
  | .jsnull => none
  | .emptyStr => none
  | .wsStr => none
  | .val v => normalizePriceO v

/-- The source's `normalizeOptionalPrice` applied to an in-memory item field that
is either `null` or a number. -/
def normOptNum (v : Option ℚ) : Option ℚ :=
  match v with
  | none => none
  | some q => normalizePriceQ q

/-- A JSON request value in a boolean position, quotiented to what JS truthiness
and `Boolean(·)` observe. -/
inductive JSPrim
  | jsnull
  | jsbool (b : Bool)
  | jsnum (q : Option ℚ)
  | jsstr (s : String)
deriving DecidableEq

/-- JS truthiness of a `JSPrim` (`none` in `jsnum` is `NaN`, which is falsy). -/
def truthy : JSPrim → Bool
  | .jsnull => false
  | .jsbool b => b
  | .jsnum none => false
  | .jsnum (some q) => decide (q ≠ 0)
  | .jsstr s => decide (s ≠ "")

example : roundCents (2 * 28) = 56 := by norm_num [roundCents]
example : roundCents ((5 : ℚ) / 2 * 25) = 125 / 2 := by norm_num [roundCents]
example : jsUpper (jsTrim "  2xl ") = "2XL" := by decide
example : jsLower (jsTrim " A@B.Co ") = "a@b.co" := by decide

/-! The data model: users, merch items, orders, API errors and the server's
persistent state (the three JSON collections plus the uploads directory). -/

/-- A stored user record (`users.json`). -/
structure User where
  id : String
  email : String
  firstName : String
  lastName : String
  initials : String
  name : String
  approved : Bool
  approvedAt : Option String
  approvedBy : Option String
  createdAt : String
deriving DecidableEq

/-- A catalog entry (`merch-items.json`). -/
structure MerchItem where
  id : String
  name : String
  price : ℚ
  image : String
  sizes : List String
  allowInitials : Bool
  paused : Bool
  twoXlPrice : Option ℚ
  createdAt : String
deriving DecidableEq

/-- A stored order record (`orders.json`). -/
structure Order where
  id : String
  itemId : String
  itemName : String
  includeInitials : Bool
  selectedSize : Option String
  unitPrice : ℚ
  totalPrice : ℚ
  quantity : ℚ
  venmoAgreed : Bool
  userId : String
  userName : String
  userInitials : String
  userEmail : String
  fulfilled : Bool
  fulfilledAt : Option String
  fulfilledBy : Option String
  createdAt : String
deriving DecidableEq

/-- An HTTP error response: status code and `error` message. -/
structure ApiError where
  status : Nat
  message : String
deriving DecidableEq

/-- Result of a handler: an error response or a payload. -/
abbrev Res (α : Type) := Except ApiError α

/-- The hardcoded owner address from the source. -/
def ownerEmail : String := "1020rjl@gmail.com"

/-- The source's `STANDARD_SIZES`. -/
def STANDARD_SIZES : List String := ["S", "M", "L", "XL", "2XL"]

/-- The source's `isOwnerUser`: case-insensitive email match against the owner
address, derived from the email alone. -/
def isOwnerUser (u : User) : Bool := decide (jsLower (jsTrim u.email) = ownerEmail)

/-- The source's `ownerRequired` middleware: `some` error means the request is
rejected before the handler runs. -/
def ownerRequired (u : User) : Option ApiError :=
  if isOwnerUser u then none else some ⟨403, "Owner access only"⟩

/-- The source's `GET /api/merch` payload: non-paused items in storage order. -/
def listPublicItems (items : List MerchItem) : List MerchItem :=
  items.filter (fun it => !it.paused)

/-! The order-placement handler (`POST /api/orders`). -/

/-- The JSON body of an order request, after the JS coercions the handler applies
at its top: `quantity` is its `Number(·)` coercion (`none` = `NaN`),
`selectedSize` the string coercion of `req.body.selectedSize || ''`, and
`includeInitials` its `Boolean(·)` coercion. -/
structure OrderReq where
  itemId : String
  quantity : Option ℚ
  venmoAgreed : JSPrim
  selectedSize : String
  includeInitials : Bool
deriving DecidableEq

/-- Construction of the stored order record once validation has passed
(source lines building `order` in the `POST /api/orders` handler). -/
def mkOrder (item : MerchItem) (user : User) (req : OrderReq) (qty : ℚ)
    (selectedSize : Option String) (newId now : String) : Order :=
  let includeInitials := if item.allowInitials then req.includeInitials else false
  let ov := normOptNum item.twoXlPrice
  let unitPrice :=
    if selectedSize = some "2XL" ∧ ov ≠ none then ov.getD item.price else item.price
  { id := newId
    itemId := item.id
    itemName := item.name
    includeInitials := includeInitials
    selectedSize := selectedSize
    unitPrice := unitPrice
    totalPrice := roundCents (qty * unitPrice)
    quantity := qty
    venmoAgreed := truthy req.venmoAgreed
    userId := user.id
    userName := user.name
    userInitials := user.initials
    userEmail := user.email
    fulfilled := false
    fulfilledAt := none
    fulfilledBy := none
    createdAt := now }

/-- The validation and construction core of `POST /api/orders`, in the exact
order of the source's checks. -/
def placeOrderCore (items : List MerchItem) (user : User) (req : OrderReq)
    (newId now : String) : Res Order :=
  if req.itemId = "" ∨ req.quantity = none then
    .error ⟨400, "itemId and quantity are required"⟩
  else
    match req.quantity with
    | none => .error ⟨400, "itemId and quantity are required"⟩
    | some qty =>
      if qty < 1 ∨ 50 < qty then .error ⟨400, "Quantity must be between 1 and 50"⟩
      else if !truthy req.venmoAgreed then .error ⟨400, "You must agree to pay via Venmo"⟩
      else
        match items.find? (fun x => x.id == req.itemId) with
        | none => .error ⟨404, "Merch item not found"⟩
        | some item =>
          if item.paused then .error ⟨400, "This item is currently unavailable"⟩
          else
            let selectedSizeRaw := jsUpper (jsTrim req.selectedSize)
            if item.sizes = [] then .ok (mkOrder item user req qty none newId now)
            else if selectedSizeRaw = "" then .error ⟨400, "Please select a size"⟩
            else if !item.sizes.contains selectedSizeRaw then
              .error ⟨400, "Selected size is not valid for this item"⟩
            else .ok (mkOrder item user req qty (some selectedSizeRaw) newId now)

/-- The full `POST /api/orders` handler seen as a transformer of the orders
collection: the new order is appended on success, and the collection is written
only after every validation has passed. -/
def placeOrder (items : List MerchItem) (user : User) (req : OrderReq)
    (orders : List Order) (newId now : String) : Res Order × List Order :=
  match placeOrderCore items user req newId now with
  | .ok o => (.ok o, orders ++ [o])
  | .error e => (.error e, orders)

/-! The fulfillment handler (`POST /api/admin/orders/:orderId/fulfill`). -/

/-- The fallback-initials computation of the fulfill handler:
`existing.userInitials || matchedUser?.initials || ''`. -/
def fbInit (users : List User) (o : Order) : String :=
  jsOrS o.userInitials (((users.find? (fun x => x.id == o.userId)).map User.initials).getD "")

/-- The updated order the fulfill handler stores: first-write-wins on
`fulfilledAt`/`fulfilledBy` through JS `||`. -/
def updateFulfill (users : List User) (o : Order) (actingEmail now : String) : Order :=
  { o with
    userInitials := fbInit users o
    fulfilled := true
    fulfilledAt := jsOrO o.fulfilledAt now
    fulfilledBy := jsOrO o.fulfilledBy actingEmail }

/-- Replacement of the first order with the given id (the source's
`findIndex` followed by an in-place write). -/
def fulfillGo (users : List User) (oid actingEmail now : String) :
    List Order → Option (Order × List Order)
  | [] => none
  | o :: rest =>
    if o.id == oid then
      let u := updateFulfill users o actingEmail now
      some (u, u :: rest)
    else
      (fulfillGo users oid actingEmail now rest).map (fun p => (p.1, o :: p.2))

/-- The fulfill handler on the orders collection: trims the path parameter,
404s when the order is absent, otherwise rewrites the collection with the
updated order. -/
def fulfillOrder (users : List User) (orders : List Order)
    (orderId actingEmail now : String) : Res Order × List Order :=
  let oid := jsTrim orderId
  if oid = "" then (.error ⟨400, "orderId is required"⟩, orders)
  else
    match fulfillGo users oid actingEmail now orders with
    | none => (.error ⟨404, "Order not found"⟩, orders)
    | some (o, l) => (.ok o, l)

/-! Catalog mutation handlers. -/

/-- The JSON body of `POST /api/admin/merch` after the handler's coercions:
`price` is the `Number(·)` coercion of the raw field, `twoXlPrice` the raw
field (`none` = key absent / `undefined`). -/
structure CreateReq where
  name : String
  price : Option ℚ
  imageDataUrl : String
  includeSizes : Bool
  allowInitials : Bool
  twoXlPrice : Option PriceInput
deriving DecidableEq

/-- The request's `normalizeOptionalPrice(req.body?.twoXlPrice)` (absence of
the key coerces to `null`). -/
def reqTwoXl (req : CreateReq) : Option ℚ :=
  match req.twoXlPrice with
  | none => none
  | some pi => normalizeOptionalPrice pi

/-- The `POST /api/admin/merch` handler. The image upload is abstracted as its
outcome: `Except` error message or stored path (`saveUploadedPngDataUrl`). -/
def createItem (req : CreateReq) (items : List MerchItem) (newId now : String)
    (upload : Except String String) : Res MerchItem × List MerchItem :=
  let name := jsTrim req.name
  let price := normalizePriceO req.price
  let twoXl := reqTwoXl req
  if name = "" then (.error ⟨400, "Product name is required"⟩, items)
  else if price = none then (.error ⟨400, "Valid price is required"⟩, items)
  else if jsTrim req.imageDataUrl = "" then (.error ⟨400, "PNG image is required"⟩, items)
  else if req.includeSizes ∧ req.twoXlPrice ≠ none ∧ twoXl = none then
    (.error ⟨400, "2XL price must be a valid amount"⟩, items)
  else if ¬ req.includeSizes ∧ twoXl ≠ none then
    (.error ⟨400, "Enable sizes before setting a 2XL price"⟩, items)
  else
    match upload with
    | .error msg => (.error ⟨400, msg⟩, items)
    | .ok imagePath =>
      let item : MerchItem :=
        { id := newId
          name := name
          price := price.getD 0
          image := imagePath
          sizes := if req.includeSizes then STANDARD_SIZES else []
          allowInitials := req.allowInitials
          paused := false
          twoXlPrice := if req.includeSizes then twoXl else none
          createdAt := now }
      (.ok item, items ++ [item])

/-- The JSON body of `PATCH /api/admin/merch/:itemId`: each field is `some`
exactly when the key is present (`hasOwnProperty`), and the boolean fields
carry their `Boolean(·)` coercion. -/
structure PatchReq where
  includeSizes : Option Bool
  allowInitials : Option Bool
  paused : Option Bool
  twoXlPrice : Option PriceInput
deriving DecidableEq

/-- The sizes toggle of the PATCH handler: turning sizes on installs the
standard set, turning them off also clears the `twoXlPrice` override. -/
def applySizesToggle (patch : PatchReq) (current : MerchItem) : MerchItem :=
  match patch.includeSizes with
  | none => current
  | some b => if b then { current with sizes := STANDARD_SIZES }
              else { current with sizes := [], twoXlPrice := none }

/-- The `allowInitials` and `paused` steps of the PATCH handler, which never
touch `sizes` or `twoXlPrice`. -/
def applyFlags (patch : PatchReq) (m : MerchItem) : MerchItem :=
  let u2 := match patch.allowInitials with
    | none => m
    | some b => { m with allowInitials := b }
  match patch.paused with
  | none => u2
  | some b => { u2 with paused := b }

/-- The per-item part of the PATCH handler, applied to the matched item in the
source's field order: sizes toggle, then `allowInitials`, `paused`, and last
the `twoXlPrice` update with its guards. -/
def applyPatch (patch : PatchReq) (current : MerchItem) : Res MerchItem :=
  let u3 := applyFlags patch (applySizesToggle patch current)
  match patch.twoXlPrice with
  | none => .ok u3
  | some pi =>
    if u3.sizes = [] then .error ⟨400, "Enable sizes before setting a 2XL price"⟩
    else
      let np := normalizeOptionalPrice pi
      if pi ≠ .jsnull ∧ pi ≠ .emptyStr ∧ np = none then
        .error ⟨400, "2XL price must be a valid amount"⟩
      else .ok { u3 with twoXlPrice := np }

/-- Replacement of the first item with the given id by its patched version;
`none` when the id is absent. -/
def updateGo (patch : PatchReq) (iid : String) :
    List MerchItem → Option (Res MerchItem × List MerchItem)
  | [] => none
  | it :: rest =>
    if it.id == iid then
      some (match applyPatch patch it with
        | .ok u => (.ok u, u :: rest)
        | .error e => (.error e, it :: rest))
    else
      (updateGo patch iid rest).map (fun p => (p.1, it :: p.2))

/-- The `PATCH /api/admin/merch/:itemId` handler on the items collection. -/
def updateItem (itemId : String) (patch : PatchReq) (items : List MerchItem) :
    Res MerchItem × List MerchItem :=
  let iid := jsTrim itemId
  if iid = "" then (.error ⟨400, "itemId is required"⟩, items)
  else if patch.includeSizes = none ∧ patch.allowInitials = none ∧
      patch.paused = none ∧ patch.twoXlPrice = none then
    (.error ⟨400, "No product updates provided"⟩, items)
  else
    match updateGo patch iid items with
    | none => (.error ⟨404, "Product not found"⟩, items)
    | some p => p

/-- Removal of the first item with the given id (the source's `findIndex` plus
`splice`). -/
def removeGo (iid : String) : List MerchItem → Option (MerchItem × List MerchItem)
  | [] => none
  | it :: rest =>
    if it.id == iid then some (it, rest)
    else (removeGo iid rest).map (fun p => (p.1, it :: p.2))

/-- Filename characters the delete handler accepts (`/^[A-Za-z0-9._-]+$/`). -/
def fnameChar (c : Char) : Bool :=
  decide ((65 ≤ c.toNat ∧ c.toNat ≤ 90) ∨ (97 ≤ c.toNat ∧ c.toNat ≤ 122) ∨
    (48 ≤ c.toNat ∧ c.toNat ≤ 57) ∨ c = '.' ∨ c = '_' ∨ c = '-')

/-- Splitting a character list at a separator character. -/
def splitChar (sep : Char) : List Char → List (List Char)
  | [] => [[]]
  | c :: rest =>
    let r := splitChar sep rest
    if c = sep then [] :: r
    else
      match r with
      | [] => [[c]]
      | h :: t => (c :: h) :: t

/-- `path.basename`: the component after the last slash. -/
def basename (s : String) : String := String.mk ((splitChar '/' s.data).getLastD s.data)

/-- The whole persistent state of the server: the three JSON collections and
the set of files in the uploads directory. -/
structure ServerState where
  users : List User
  orders : List Order
  merchItems : List MerchItem
  uploads : List String
deriving DecidableEq

/-- The `DELETE /api/admin/merch/:itemId` handler on the full persistent state:
it rewrites the items collection and unlinks the removed item's managed upload,
touching nothing else. -/
def deleteItemS (itemId : String) (st : ServerState) : Res MerchItem × ServerState :=
  let iid := jsTrim itemId
  if iid = "" then (.error ⟨400, "itemId is required"⟩, st)
  else
    match removeGo iid st.merchItems with
    | none => (.error ⟨404, "Product not found"⟩, st)
    | some (removed, rest) =>
      let fn := basename removed.image
      let uploads :=
        if List.isPrefixOf "/uploads/".data removed.image.data ∧ fn ≠ "" ∧ fn.data.all fnameChar then
          st.uploads.erase fn
        else st.uploads
      (.ok removed, { st with merchItems := rest, uploads := uploads })

/-- The PATCH handler on the full persistent state. -/
def updateItemS (itemId : String) (patch : PatchReq) (st : ServerState) :
    Res MerchItem × ServerState :=
  let p := updateItem itemId patch st.merchItems
  (p.1, { st with merchItems := p.2 })

/-! Profile helpers and the login handler (`POST /api/auth/login`). -/

/-- Uppercase ASCII letter test. -/
def upperAlpha (c : Char) : Bool := decide (65 ≤ c.toNat ∧ c.toNat ≤ 90)

/-- The `/^[A-Z]{1,5}$/` test of `normalizeInitials`. -/
def validInitials (s : String) : Bool :=
  decide (1 ≤ s.data.length ∧ s.data.length ≤ 5) && s.data.all upperAlpha

/-- The source's `normalizeInitials`: trim, uppercase, and accept only one to
five capital letters. -/
def normalizeInitials (s : String) : Option String :=
  let n := jsUpper (jsTrim s)
  if validInitials n then some n else none

/-- Characters allowed in the email regex classes (`[^\s@]`). -/
def emailChar (c : Char) : Bool := !isWsB c && c != '@'

/-- Containment of a dot strictly inside a character list. -/
def hasMiddleDot (l : List Char) : Bool := ((l.drop 1).dropLast).contains '.'

/-- The `/^[^\s@]+@[^\s@]+\.[^\s@]+$/` shape test of `normalizeEmail`. -/
def emailShape (s : String) : Bool :=
  match splitChar '@' s.data with
  | [a, b] => decide (a ≠ []) && a.all emailChar && b.all emailChar && hasMiddleDot b
  | _ => false

/-- The source's `normalizeEmail`: trim, lowercase, then the shape test. -/
def normalizeEmail (s : String) : Option String :=
  let n := jsLower (jsTrim s)
  if emailShape n then some n else none

/-- The source's `profileIsComplete`: nonblank first and last name and valid
initials. -/
def profileIsComplete (u : User) : Bool :=
  decide (jsTrim u.firstName ≠ "") && decide (jsTrim u.lastName ≠ "") &&
    (normalizeInitials u.initials).isSome

/-- First character of a string as a string (JS `charAt(0)`, empty on empty). -/
def firstCh (s : String) : String :=
  match s.data with
  | [] => ""
  | c :: _ => String.mk [c]

/-- The source's `buildInitials`: first letters of the two names, uppercased. -/
def buildInitials (firstName lastName : String) : String :=
  jsUpper (firstCh firstName ++ firstCh lastName)

/-- Whitespace-separated words of a string (the source's trim, `split(/\s+/)`,
`filter(Boolean)` pipeline). -/
def wordsAux : List Char → List Char → List String
  | [], acc => if acc = [] then [] else [String.mk acc.reverse]
  | c :: rest, acc =>
    if isWsB c then
      if acc = [] then wordsAux rest []
      else String.mk acc.reverse :: wordsAux rest []
    else wordsAux rest (c :: acc)

/-- The source's `splitName`: first word, and the remaining words joined by a
space. -/
def splitName (fullName : String) : String × String :=
  match wordsAux fullName.data [] with
  | [] => ("", "")
  | [p] => (p, "")
  | p :: rest => (p, String.intercalate " " rest)

/-- The source's `profileSuggestion` (firstName, lastName, initials). -/
def profileSuggestion (preferredName : String) : String × String × String :=
  let sp := splitName preferredName
  (sp.1, sp.2, buildInitials sp.1 sp.2)

/-- The login handler's back-fill of an incomplete profile, with the
`'Club'`/`'Member'`/`'DC'` defaults. -/
def backfillProfile (u : User) (e : String) : User :=
  let fb := profileSuggestion (jsOrS u.name e)
  let f := jsOrS (jsTrim (jsOrS (jsOrS u.firstName fb.1) "Club")) "Club"
  let l := jsOrS (jsTrim (jsOrS (jsOrS u.lastName fb.2.1) "Member")) "Member"
  let ini := ((normalizeInitials u.initials).orElse
    (fun _ => normalizeInitials (buildInitials f l))).getD "DC"
  { u with firstName := f, lastName := l, initials := ini, name := jsTrim (f ++ " " ++ l) }

/-- The mutation the login handler applies to the matched user record: email
refresh, profile back-fill, and force-approval. -/
def loginUpdate (e : String) (u : User) (now : String) : User :=
  let u1 := { u with email := e }
  let u2 := if profileIsComplete u1 then u1 else backfillProfile u1 e
  if u2.approved = true then u2
  else
    { u2 with
      approved := true
      approvedAt := jsOrO u2.approvedAt now
      approvedBy := jsOrO u2.approvedBy ownerEmail }

/-- In-place update of the first user whose normalized email matches. -/
def loginGo (e now : String) : List User → Option (User × List User)
  | [] => none
  | u :: rest =>
    if jsLower (jsTrim u.email) == e then
      let u2 := loginUpdate e u now
      some (u2, u2 :: rest)
    else
      (loginGo e now rest).map (fun p => (p.1, u :: p.2))

/-- The `POST /api/auth/login` handler: malformed email is rejected, an unknown
account 404s, and a found account is refreshed, back-filled, force-approved and
written back. -/
def login (email : String) (users : List User) (now : String) : Res (User × List User) :=
  match normalizeEmail email with
  | none => .error ⟨400, "email is required"⟩
  | some e =>
    match loginGo e now users with
    | none => .error ⟨404, "Account not found. Create an account first."⟩
    | some p => .ok p

/-! The owner-gated admin endpoints used by the authorization claims. -/

/-- Stable insertion of an element into a list sorted descending by a string
key. -/
def insertDesc (key : Order → String) (x : Order) : List Order → List Order
  | [] => [x]
  | y :: rest => if key y < key x then x :: y :: rest else y :: insertDesc key x rest

/-- Stable sort, descending by a string key (the source's comparator
`(a, b) => String(b.k).localeCompare(String(a.k))`, ASCII reading). -/
def sortDesc (key : Order → String) : List Order → List Order
  | [] => []
  | x :: rest => insertDesc key x (sortDesc key rest)

/-- The admin list view's per-order enrichment. -/
def enrichOrder (users : List User) (o : Order) : Order :=
  { o with
    selectedSize := nzO o.selectedSize
    userInitials := fbInit users o
    fulfilledAt := nzO o.fulfilledAt
    fulfilledBy := nzO o.fulfilledBy }

/-- The `GET /api/admin/orders` payload: open and fulfilled partitions, each
sorted descending by timestamp. -/
def adminOrdersView (orders : List Order) (users : List User) :
    List Order × List Order :=
  let enriched := orders.map (enrichOrder users)
  (sortDesc (fun o => o.createdAt) (enriched.filter (fun o => !o.fulfilled)),
   sortDesc (fun o => (jsOrO o.fulfilledAt o.createdAt).getD o.createdAt)
     (enriched.filter (fun o => o.fulfilled)))

/-- The fulfill endpoint behind `authRequired, ownerRequired`. -/
def fulfillEndpoint (u : User) (users : List User) (orders : List Order)
    (orderId now : String) : Res Order × List Order :=
  match ownerRequired u with
  | some e => (.error e, orders)
  | none => fulfillOrder users orders orderId u.email now

/-- The admin order-listing endpoint behind `authRequired, ownerRequired`. -/
def listOrdersEndpoint (u : User) (orders : List Order) (users : List User) :
    Res (List Order × List Order) :=
  match ownerRequired u with
  | some e => .error e
  | none => .ok (adminOrdersView orders users)

/-- The catalog PATCH endpoint behind `authRequired, ownerRequired`. -/
def updateItemEndpoint (u : User) (itemId : String) (patch : PatchReq)
    (items : List MerchItem) : Res MerchItem × List MerchItem :=
  match ownerRequired u with
  | some e => (.error e, items)
  | none => updateItem itemId patch items

/-! Theorems. -/

/-- C9: deleting (or patching) a catalog item never modifies the orders or
users collections — previously placed orders, with their denormalized
`itemName`/`unitPrice`/`totalPrice`, are identical before and after; only the
merch-items collection and (for delete) the uploads directory change. -/
theorem deleteItem_preserves_orders (itemId : String) (patch : PatchReq) (st : ServerState) :
    (deleteItemS itemId st).2.orders = st.orders ∧
    (deleteItemS itemId st).2.users = st.users ∧
    (updateItemS itemId patch st).2.orders = st.orders ∧
    (updateItemS itemId patch st).2.users = st.users ∧
    (updateItemS itemId patch st).2.uploads = st.uploads := by
  refine ⟨?_, ?_, rfl, rfl, rfl⟩ <;>
  · unfold deleteItemS
    dsimp only
    split
    · rfl
    · split
      · rfl
      · rfl

/-- C7: owner status is derived from the normalized email alone — true iff the
trimmed, lowercased email equals the configured owner address, unchanged by the
stored `approved` flag — and every owner-gated operation (fulfill, admin order
listing, catalog mutation) rejects a non-owner with the 403 authorization
error, even one with `approved = true`. -/
theorem owner_status_from_email (u : User) (b : Bool) (users : List User)
    (orders : List Order) (oid now iid : String) (patch : PatchReq)
    (items : List MerchItem) :
    (isOwnerUser u = true ↔ jsLower (jsTrim u.email) = ownerEmail) ∧
    isOwnerUser { u with approved := b } = isOwnerUser u ∧
    (isOwnerUser u = false →
      fulfillEndpoint u users orders oid now = (.error ⟨403, "Owner access only"⟩, orders) ∧
      listOrdersEndpoint u orders users = .error ⟨403, "Owner access only"⟩ ∧
      updateItemEndpoint u iid patch items = (.error ⟨403, "Owner access only"⟩, items)) := by
  refine ⟨by simp [isOwnerUser], rfl, fun h => ?_⟩
  have hg : ownerRequired u = some ⟨403, "Owner access only"⟩ := by
    simp [ownerRequired, h]
  exact ⟨by simp [fulfillEndpoint, hg], by simp [listOrdersEndpoint, hg],
    by simp [updateItemEndpoint, hg]⟩

/-- A non-owner member account with `approved` stored as `true`. -/
def demoMember : User :=
  { id := "u9", email := "eve@x.co", firstName := "Eve", lastName := "Fox",
    initials := "EF", name := "Eve Fox", approved := true, approvedAt := none,
    approvedBy := none, createdAt := "c" }

/-- Witness for C7: the approved non-owner is still rejected by the fulfill
endpoint. -/
theorem owner_status_from_email_witness :
    demoMember.approved = true ∧ isOwnerUser demoMember = false ∧
    fulfillEndpoint demoMember [] [] "o1" "T" =
      (.error ⟨403, "Owner access only"⟩, []) :=
  ⟨rfl, by decide,
    ((owner_status_from_email demoMember true [] [] "o1" "T" "i" ⟨none, none, none, none⟩
      []).2.2 (by decide)).1⟩

/-- Status projection of a handler result (`some` exactly on error responses). -/
def errStatus {α : Type} (r : Res α) : Option Nat :=
  match r with
  | .error e => some e.status
  | .ok _ => none

/-- Inversion of a successful `placeOrderCore` run: every validation passed and
the returned order is the constructed one. -/
theorem placeOrderCore_ok_inv (items : List MerchItem) (user : User) (req : OrderReq)
    (newId now : String) (o : Order)
    (h : placeOrderCore items user req newId now = .ok o) :
    ∃ q item, req.itemId ≠ "" ∧ req.quantity = some q ∧ ¬(q < 1 ∨ 50 < q) ∧
      truthy req.venmoAgreed = true ∧
      items.find? (fun x => x.id == req.itemId) = some item ∧ item.paused = false ∧
      ((item.sizes = [] ∧ o = mkOrder item user req q none newId now) ∨
       (item.sizes ≠ [] ∧ jsUpper (jsTrim req.selectedSize) ≠ "" ∧
        item.sizes.contains (jsUpper (jsTrim req.selectedSize)) = true ∧
        o = mkOrder item user req q (some (jsUpper (jsTrim req.selectedSize))) newId now)) := by
  unfold placeOrderCore at h
  by_cases h1 : req.itemId = "" ∨ req.quantity = none
  · rw [if_pos h1] at h; exact absurd h (by simp)
  · rw [if_neg h1] at h
    push_neg at h1
    obtain ⟨hid, hqn⟩ := h1
    cases hq : req.quantity with
    | none => exact absurd hq hqn
    | some q =>
      rw [hq] at h
      dsimp only at h
      by_cases h2 : q < 1 ∨ 50 < q
      · rw [if_pos h2] at h; exact absurd h (by simp)
      · rw [if_neg h2] at h
        by_cases h3 : truthy req.venmoAgreed = true
        · rw [h3] at h
          simp only [Bool.not_true, Bool.false_eq_true, if_false] at h
          cases hfind : items.find? (fun x => x.id == req.itemId) with
          | none => rw [hfind] at h; exact absurd h (by simp)
          | some item =>
            rw [hfind] at h
            dsimp only at h
            by_cases hp : item.paused = true
            · rw [if_pos hp] at h; exact absurd h (by simp)
            · rw [if_neg hp] at h
              by_cases hs : item.sizes = []
              · rw [if_pos hs] at h
                refine ⟨q, item, hid, rfl, h2, h3, rfl, by simpa using hp, .inl ⟨hs, ?_⟩⟩
                exact (Except.ok.injEq _ _).mp h.symm
              · rw [if_neg hs] at h
                by_cases he : jsUpper (jsTrim req.selectedSize) = ""
                · rw [if_pos he] at h; exact absurd h (by simp)
                · rw [if_neg he] at h
                  by_cases hc : item.sizes.contains (jsUpper (jsTrim req.selectedSize)) = true
                  · rw [hc] at h
                    simp only [Bool.not_true, Bool.false_eq_true, if_false] at h
                    refine ⟨q, item, hid, rfl, h2, h3, rfl, by simpa using hp,
                      .inr ⟨hs, he, hc, ?_⟩⟩
                    exact (Except.ok.injEq _ _).mp h.symm
                  · rw [Bool.not_eq_true] at hc
                    rw [hc] at h
                    simp only [Bool.not_false, if_true] at h
                    exact absurd h (by simp)
        · rw [Bool.not_eq_true] at h3
          rw [h3] at h
          simp only [Bool.not_false, if_true] at h
          exact absurd h (by simp)

/-- C6 (amended): once the earlier validations pass, an absent item id fails
with the 404 not-found error and a paused item is rejected by a dedicated
branch that carries status 400 — the same status class as the validation
errors, not a distinct conflict status; and the public catalog is exactly the
non-paused items in storage order. -/
theorem placeOrder_item_resolution (items : List MerchItem) (user : User)
    (req : OrderReq) (newId now : String) (q : ℚ)
    (hid : req.itemId ≠ "") (hq : req.quantity = some q)
    (hq1 : ¬(q < 1 ∨ 50 < q)) (hv : truthy req.venmoAgreed = true) :
    (items.find? (fun x => x.id == req.itemId) = none →
      placeOrderCore items user req newId now = .error ⟨404, "Merch item not found"⟩) ∧
    (∀ item, items.find? (fun x => x.id == req.itemId) = some item → item.paused = true →
      placeOrderCore items user req newId now =
        .error ⟨400, "This item is currently unavailable"⟩) ∧
    (∀ its : List MerchItem, List.Sublist (listPublicItems its) its ∧
      ∀ it : MerchItem, it ∈ listPublicItems its ↔ it ∈ its ∧ it.paused = false) := by
  refine ⟨fun hfind => ?_, fun item hfind hpaused => ?_, fun its => ?_⟩
  · simp [placeOrderCore, hid, hq, hq1, hv, hfind]
  · simp [placeOrderCore, hid, hq, hq1, hv, hfind, hpaused]
  · exact ⟨List.filter_sublist its, fun it => by simp [listPublicItems, List.mem_filter]⟩

/-- A sizeless, unpaused catalog item as seeded by the source. -/
def plainHat : MerchItem :=
  { id := "torch-hat", name := "Torch Hat", price := 25, image := "/hat2.png",
    sizes := [], allowInitials := false, paused := false, twoXlPrice := none,
    createdAt := "c" }

/-- The same item, paused. -/
def pausedHat : MerchItem := { plainHat with paused := true }

/-- A buying member. -/
def buyer : User :=
  { id := "u2", email := "ann@x.co", firstName := "Ann", lastName := "Lee",
    initials := "AL", name := "Ann Lee", approved := true, approvedAt := none,
    approvedBy := none, createdAt := "c" }

/-- A valid order request for the sizeless hat. -/
def reqPlain : OrderReq :=
  { itemId := "torch-hat", quantity := some 1, venmoAgreed := .jsbool true,
    selectedSize := "", includeInitials := false }

/-- The same request with the payment agreement declined. -/
def reqNoVenmo : OrderReq := { reqPlain with venmoAgreed := .jsbool false }

/-- Counterexample for C6: ordering the paused item is rejected with status
400 — the very same status carried by the venmo validation rejection — so the
paused-item failure is not a distinct error kind from a validation error. -/
theorem placeOrder_paused_status_counterexample :
    placeOrderCore [pausedHat] buyer reqPlain "o1" "T" =
      .error ⟨400, "This item is currently unavailable"⟩ ∧
    placeOrderCore [pausedHat] buyer reqNoVenmo "o1" "T" =
      .error ⟨400, "You must agree to pay via Venmo"⟩ := by
  constructor
  · rfl
  · rfl

/-- Witness for C6: the 404 branch of the theorem at a concrete unknown id. -/
theorem placeOrder_item_resolution_witness :
    placeOrderCore [plainHat] buyer { reqPlain with itemId := "ghost" } "o1" "T" =
      .error ⟨404, "Merch item not found"⟩ :=
  (placeOrder_item_resolution [plainHat] buyer { reqPlain with itemId := "ghost" }
    "o1" "T" 1 (by decide) rfl (by norm_num) rfl).1 (by decide)

/-- C5 (amended): the order handler rejects with a 400 validation error
whenever `venmoAgreed` is falsy, every rejection of any kind leaves the orders
collection untouched, and a stored order always records `venmoAgreed` as the
`Boolean(·)` coercion `true`. -/
theorem venmo_validation (items : List MerchItem) (user : User) (req : OrderReq)
    (orders : List Order) (newId now : String) :
    (truthy req.venmoAgreed = false →
      errStatus (placeOrder items user req orders newId now).1 = some 400 ∧
      (placeOrder items user req orders newId now).2 = orders) ∧
    (∀ e : ApiError, (placeOrder items user req orders newId now).1 = .error e →
      (placeOrder items user req orders newId now).2 = orders) ∧
    (∀ o : Order, (placeOrder items user req orders newId now).1 = .ok o →
      o.venmoAgreed = true) := by
  refine ⟨fun hv => ?_, fun e he => ?_, fun o ho => ?_⟩
  · have h : errStatus (placeOrderCore items user req newId now) = some 400 := by
      unfold placeOrderCore
      split
      · rfl
      · split
        · rfl
        · split
          · rfl
          · rw [hv]
            simp only [Bool.not_false, if_true]
            rfl
    unfold placeOrder
    cases hc : placeOrderCore items user req newId now with
    | ok o => rw [hc] at h; exact absurd h (by simp [errStatus])
    | error e => rw [hc] at h; exact ⟨h, rfl⟩
  · unfold placeOrder at he ⊢
    cases hc : placeOrderCore items user req newId now with
    | ok o => rw [hc] at he; simp at he
    | error e2 => rfl
  · unfold placeOrder at ho
    cases hc : placeOrderCore items user req newId now with
    | error e => rw [hc] at ho; exact absurd ho (by simp)
    | ok o2 =>
      rw [hc] at ho
      obtain ⟨q, item, _, _, _, hv, _, _, hcase⟩ :=
        placeOrderCore_ok_inv items user req newId now o2 hc
      have hfield : o2.venmoAgreed = truthy req.venmoAgreed := by
        rcases hcase with ⟨_, rfl⟩ | ⟨_, _, _, rfl⟩ <;> rfl
      have : o2 = o := by simpa using ho
      rw [← this, hfield, hv]

/-- A request whose `venmoAgreed` is the JSON number `1`: truthy but not the
boolean `true`. -/
def reqVenmoNum : OrderReq := { reqPlain with venmoAgreed := .jsnum (some 1) }

/-- Counterexample for C5: with `venmoAgreed: 1` — a value that is not `true` —
the order is accepted (and stored with `venmoAgreed` coerced to `true`), so the
handler does not fail whenever `venmoAgreed` is not `true`; it only checks
truthiness. -/
theorem venmo_truthy_counterexample :
    (.jsnum (some 1) : JSPrim) ≠ .jsbool true ∧
    (placeOrderCore [plainHat] buyer reqVenmoNum "o1" "T").toOption.map
      Order.venmoAgreed = some true := by
  constructor
  · intro h; cases h
  · rfl

/-- Witness for C5: a falsy `venmoAgreed` is rejected with status 400 and the
orders collection stays empty. -/
theorem venmo_validation_witness :
    errStatus (placeOrder [plainHat] buyer reqNoVenmo [] "o1" "T").1 = some 400 ∧
    (placeOrder [plainHat] buyer reqNoVenmo [] "o1" "T").2 = [] :=
  (venmo_validation [plainHat] buyer reqNoVenmo [] "o1" "T").1 rfl

/-- C3 (amended): the order handler rejects `NaN` and out-of-range quantities
with a 400 validation error, leaving the orders collection untouched, and a
stored order's quantity is exactly the requested number, within `[1, 50]` —
the handler never requires it to be an integer. -/
theorem quantity_validation (items : List MerchItem) (user : User) (req : OrderReq)
    (orders : List Order) (newId now : String) :
    (req.quantity = none →
      (placeOrder items user req orders newId now).1 =
        .error ⟨400, "itemId and quantity are required"⟩ ∧
      (placeOrder items user req orders newId now).2 = orders) ∧
    (∀ q : ℚ, req.quantity = some q → (q < 1 ∨ 50 < q) →
      errStatus (placeOrder items user req orders newId now).1 = some 400 ∧
      (placeOrder items user req orders newId now).2 = orders) ∧
    (∀ o : Order, (placeOrder items user req orders newId now).1 = .ok o →
      req.quantity = some o.quantity ∧ 1 ≤ o.quantity ∧ o.quantity ≤ 50) := by
  refine ⟨fun hq => ?_, fun q hq hr => ?_, fun o ho => ?_⟩
  · have h : placeOrderCore items user req newId now =
        .error ⟨400, "itemId and quantity are required"⟩ := by
      unfold placeOrderCore
      rw [if_pos (Or.inr hq)]
    simp [placeOrder, h]
  · have h : errStatus (placeOrderCore items user req newId now) = some 400 := by
      unfold placeOrderCore
      split
      · rfl
      · rw [hq]
        dsimp only
        rw [if_pos hr]
        rfl
    unfold placeOrder
    cases hc : placeOrderCore items user req newId now with
    | ok o => rw [hc] at h; exact absurd h (by simp [errStatus])
    | error e => rw [hc] at h; exact ⟨h, rfl⟩
  · unfold placeOrder at ho
    cases hc : placeOrderCore items user req newId now with
    | error e => rw [hc] at ho; exact absurd ho (by simp)
    | ok o2 =>
      rw [hc] at ho
      obtain ⟨q, item, _, hq, hr, _, _, _, hcase⟩ :=
        placeOrderCore_ok_inv items user req newId now o2 hc
      push_neg at hr
      have hfield : o2.quantity = q := by
        rcases hcase with ⟨_, rfl⟩ | ⟨_, _, _, rfl⟩ <;> rfl
      have : o2 = o := by simpa using ho
      subst this
      exact ⟨hfield ▸ hq, hfield ▸ hr.1, hfield ▸ hr.2⟩

/-- A request for the sizeless hat with the fractional quantity `2.5`. -/
def reqHalf : OrderReq := { reqPlain with quantity := some (5 / 2) }

/-- Counterexample for C3: quantity `2.5` — not an integer — passes validation
and an order with quantity `2.5` is appended to the collection, so the handler
does not validate integrality. -/
theorem quantity_fractional_counterexample :
    (placeOrderCore [plainHat] buyer reqHalf "o1" "T").toOption.map
      Order.quantity = some (5 / 2) ∧
    (placeOrder [plainHat] buyer reqHalf [] "o1" "T").2.length = 1 ∧
    Int.fract ((5 : ℚ) / 2) ≠ 0 := by
  refine ⟨?_, ?_, ?_⟩
  · norm_num [placeOrderCore, mkOrder, plainHat, reqHalf, reqPlain, buyer, truthy,
      List.find?, normOptNum]
    rw [if_neg (by decide)]
    exact ⟨_, rfl, rfl⟩
  · norm_num [placeOrder, placeOrderCore, mkOrder, plainHat, reqHalf, reqPlain, buyer,
      truthy, List.find?, normOptNum]
    rw [if_neg (by decide)]
    rfl
  · norm_num [Int.fract]

/-- Witness for C3: the quantity `0` is rejected with status 400 and nothing is
persisted. -/
theorem quantity_validation_witness :
    errStatus (placeOrder [plainHat] buyer { reqPlain with quantity := some 0 }
      [] "o1" "T").1 = some 400 ∧
    (placeOrder [plainHat] buyer { reqPlain with quantity := some 0 }
      [] "o1" "T").2 = [] :=
  (quantity_validation [plainHat] buyer { reqPlain with quantity := some 0 }
    [] "o1" "T").2.1 0 rfl (by norm_num)

/-- C2: for an item with an empty size set the order is accepted with
`selectedSize` stored as `null`, whatever size the request supplied; for an
item with a non-empty size set, a request whose normalized size is not a
member of that set is rejected with a 400 validation error, and every accepted
order stores a member of the set. -/
theorem size_validation (items : List MerchItem) (user : User) (req : OrderReq)
    (newId now : String) (q : ℚ) (item : MerchItem)
    (hid : req.itemId ≠ "") (hq : req.quantity = some q) (hq1 : ¬(q < 1 ∨ 50 < q))
    (hv : truthy req.venmoAgreed = true)
    (hfind : items.find? (fun x => x.id == req.itemId) = some item)
    (hp : item.paused = false) :
    (item.sizes = [] →
      (placeOrderCore items user req newId now).toOption.map Order.selectedSize =
        some none) ∧
    (item.sizes ≠ [] → item.sizes.contains (jsUpper (jsTrim req.selectedSize)) = false →
      errStatus (placeOrderCore items user req newId now) = some 400) ∧
    (∀ o, placeOrderCore items user req newId now = .ok o → item.sizes ≠ [] →
      o.selectedSize = some (jsUpper (jsTrim req.selectedSize)) ∧
      item.sizes.contains (jsUpper (jsTrim req.selectedSize)) = true) := by
  refine ⟨fun hs => ?_, fun hs hc => ?_, fun o ho hs => ?_⟩
  · simp [placeOrderCore, hid, hq, hq1, hv, hfind, hp, hs, mkOrder]
    exact ⟨_, rfl, rfl⟩
  · have hcm : jsUpper (jsTrim req.selectedSize) ∉ item.sizes := by simpa using hc
    by_cases he : jsUpper (jsTrim req.selectedSize) = ""
    · simp [placeOrderCore, hid, hq, hq1, hv, hfind, hp, hs, he, errStatus]
    · simp [placeOrderCore, hid, hq, hq1, hv, hfind, hp, hs, he, hcm, errStatus]
  · obtain ⟨q2, item2, _, _, _, _, hfind2, _, hcase⟩ :=
      placeOrderCore_ok_inv items user req newId now o ho
    have hit : item2 = item := by
      rw [hfind2] at hfind
      exact (Option.some.injEq _ _).mp hfind
    subst hit
    rcases hcase with ⟨hs0, _⟩ | ⟨_, _, hc, rfl⟩
    · exact absurd hs0 hs
    · exact ⟨rfl, hc⟩

/-- Witness for C2: the sizeless hat with a supplied size `"XL"` is accepted
and stored with `selectedSize = null`. -/
theorem size_validation_witness :
    (placeOrderCore [plainHat] buyer { reqPlain with selectedSize := "XL" }
      "o1" "T").toOption.map Order.selectedSize = some none :=
  (size_validation [plainHat] buyer { reqPlain with selectedSize := "XL" }
    "o1" "T" 1 plainHat (by decide) rfl (by norm_num) rfl rfl rfl).1 rfl

/-- C1: for every successfully placed order, the unit price is the item's 2XL
override exactly when the selected size is `2XL` and the override is defined
(for a well-formed item whose stored override is an already-normalized price),
and otherwise the item's base price; and the total price is quantity times
unit price rounded to the nearest cent. -/
theorem order_pricing (items : List MerchItem) (user : User) (req : OrderReq)
    (newId now : String) (item : MerchItem) (o : Order)
    (hfind : items.find? (fun x => x.id == req.itemId) = some item)
    (hwf : ∀ p : ℚ, item.twoXlPrice = some p → normalizePriceQ p = some p)
    (hok : placeOrderCore items user req newId now = .ok o) :
    o.unitPrice = (if o.selectedSize = some "2XL" ∧ item.twoXlPrice ≠ none
      then item.twoXlPrice.getD item.price else item.price) ∧
    o.totalPrice = roundCents (o.quantity * o.unitPrice) := by
  obtain ⟨q, item2, _, _, _, _, hfind2, _, hcase⟩ :=
    placeOrderCore_ok_inv items user req newId now o hok
  have hit : item2 = item := by
    rw [hfind2] at hfind
    exact (Option.some.injEq _ _).mp hfind
  subst hit
  have hov : normOptNum item2.twoXlPrice = item2.twoXlPrice := by
    cases htw : item2.twoXlPrice with
    | none => rfl
    | some p => simpa [normOptNum] using hwf p htw
  rcases hcase with ⟨_, rfl⟩ | ⟨_, _, _, rfl⟩ <;>
    exact ⟨by simp [mkOrder, hov], by simp [mkOrder]⟩

/-- The spec's 2XL scenario item: base price 25, standard sizes, override 28. -/
def hat2 : MerchItem :=
  { id := "hat2", name := "Hat Two", price := 25, image := "/hat2.png",
    sizes := STANDARD_SIZES, allowInitials := false, paused := false,
    twoXlPrice := some 28, createdAt := "c" }

/-- An order request selecting size `2xl` (normalized to `2XL`), quantity 2. -/
def req2xl : OrderReq :=
  { itemId := "hat2", quantity := some 2, venmoAgreed := .jsbool true,
    selectedSize := "2xl", includeInitials := false }

/-- The order the 2XL scenario produces, with its price fields left as the
handler's own expressions. -/
def ord2xl : Order :=
  { id := "o1", itemId := "hat2", itemName := "Hat Two", includeInitials := false,
    selectedSize := some "2XL",
    unitPrice := (normOptNum (some 28)).getD 25,
    totalPrice := roundCents (2 * ((normOptNum (some 28)).getD 25)),
    quantity := 2, venmoAgreed := true, userId := "u2", userName := "Ann Lee",
    userInitials := "AL", userEmail := "ann@x.co", fulfilled := false,
    fulfilledAt := none, fulfilledBy := none, createdAt := "T" }

/-- Witness for C1: the spec scenario — override 28 selected via size 2XL at
quantity 2 yields unit price 28 and total 56. -/
theorem order_pricing_witness :
    (placeOrderCore [hat2] buyer req2xl "o1" "T").toOption.map
      (fun o => (o.unitPrice, o.totalPrice)) = some (28, 56) := by
  have hod : placeOrderCore [hat2] buyer req2xl "o1" "T" = .ok ord2xl := rfl
  have h := order_pricing [hat2] buyer req2xl "o1" "T" hat2 ord2xl rfl
    (fun p hp => by
      rw [show p = 28 by simpa [hat2] using hp.symm]
      norm_num [normalizePriceQ, roundCents]) hod
  have h1 : ord2xl.unitPrice = 28 := by
    rw [h.1, if_pos ⟨by decide, by decide⟩]
    norm_num [hat2]
  have h2 : ord2xl.totalPrice = 56 := by
    rw [h.2, h1]
    norm_num [ord2xl, roundCents]
  rw [hod]
  simp only [Except.toOption, Option.map]
  rw [h1, h2]

/-- An error result paired with a collection never equals a success pair. -/
theorem err_pair_ne_ok {α β : Type} {e : ApiError} {a : α} {b c : β}
    (h : ((Except.error e : Res α), b) = (Except.ok a, c)) : False :=
  Except.noConfusion (congrArg Prod.fst h)

/-- The `allowInitials`/`paused` steps never change `sizes`. -/
theorem applyFlags_sizes (patch : PatchReq) (m : MerchItem) :
    (applyFlags patch m).sizes = m.sizes := by
  unfold applyFlags
  cases patch.allowInitials <;> cases patch.paused <;> rfl

/-- The `allowInitials`/`paused` steps never change `twoXlPrice`. -/
theorem applyFlags_twoXl (patch : PatchReq) (m : MerchItem) :
    (applyFlags patch m).twoXlPrice = m.twoXlPrice := by
  unfold applyFlags
  cases patch.allowInitials <;> cases patch.paused <;> rfl

/-- A PATCH that fails inside the matched item leaves the collection unchanged. -/
theorem updateGo_error_frame (patch : PatchReq) (iid : String) :
    ∀ (l : List MerchItem) (r : Res MerchItem) (l2 : List MerchItem),
      updateGo patch iid l = some (r, l2) → ∀ e, r = .error e → l2 = l := by
  intro l
  induction l with
  | nil => intro r l2 h; simp [updateGo] at h
  | cons it rest ih =>
    intro r l2 h e hr
    unfold updateGo at h
    by_cases hit : (it.id == iid) = true
    · rw [if_pos hit] at h
      cases happ : applyPatch patch it with
      | ok u =>
        rw [happ] at h
        obtain ⟨h1, h2⟩ := Prod.mk.injEq .. ▸ (Option.some.injEq _ _).mp h
        exact absurd (h1 ▸ hr) (by simp)
      | error e2 =>
        rw [happ] at h
        exact ((Prod.mk.injEq .. ▸ (Option.some.injEq _ _).mp h).2).symm ▸ rfl
    · rw [if_neg hit] at h
      cases hgo : updateGo patch iid rest with
      | none => rw [hgo] at h; simp at h
      | some p =>
        rw [hgo] at h
        dsimp only [Option.map] at h
        obtain ⟨h1, h2⟩ := Prod.mk.injEq .. ▸ (Option.some.injEq _ _).mp h
        have hrec := ih p.1 p.2 (by rw [hgo]) e (h1.trans hr)
        rw [← h2, hrec]

/-- C8: every catalog operation preserves `sizes = [] → twoXlPrice = null`:
a sizeless creation stores a null override, a creation that supplies a defined
override without sizes fails with a 400 validation error leaving the
collection unchanged, a patch that turns sizes off clears the override, a
patch that supplies an override while the item's sizes are (or become) empty
fails with the 400 validation error, and any failing patch leaves the
collection unchanged. -/
theorem catalog_twoXl_invariant (req : CreateReq) (items : List MerchItem)
    (newId now : String) (upload : Except String String) (itemId : String)
    (patch : PatchReq) :
    (∀ it its2, createItem req items newId now upload = (.ok it, its2) →
      (req.includeSizes = false → it.twoXlPrice = none) ∧
      (it.sizes = [] → it.twoXlPrice = none)) ∧
    (req.includeSizes = false → reqTwoXl req ≠ none →
      errStatus (createItem req items newId now upload).1 = some 400 ∧
      (createItem req items newId now upload).2 = items) ∧
    (∀ cur u, applyPatch patch cur = .ok u →
      (patch.includeSizes = some false → u.twoXlPrice = none) ∧
      ((cur.sizes = [] → cur.twoXlPrice = none) → u.sizes = [] → u.twoXlPrice = none)) ∧
    (∀ cur, patch.includeSizes = none → patch.twoXlPrice ≠ none → cur.sizes = [] →
      applyPatch patch cur = .error ⟨400, "Enable sizes before setting a 2XL price"⟩) ∧
    (∀ e, (updateItem itemId patch items).1 = .error e →
      (updateItem itemId patch items).2 = items) := by
  refine ⟨fun it its2 hok => ?_, fun hinc htw => ?_, fun cur u hok => ?_,
    fun cur hinc htw hsz => ?_, fun e herr => ?_⟩
  · unfold createItem at hok
    dsimp only at hok
    split at hok
    · exact (err_pair_ne_ok hok).elim
    · split at hok
      · exact (err_pair_ne_ok hok).elim
      · split at hok
        · exact (err_pair_ne_ok hok).elim
        · split at hok
          · exact (err_pair_ne_ok hok).elim
          · split at hok
            · exact (err_pair_ne_ok hok).elim
            · cases hup : upload with
              | error msg => rw [hup] at hok; exact (err_pair_ne_ok hok).elim
              | ok path =>
                rw [hup] at hok
                dsimp only at hok
                obtain ⟨h1, h2⟩ := Prod.mk.injEq .. ▸ hok
                replace h1 := (Except.ok.injEq _ _).mp h1
                constructor
                · intro hs
                  rw [← h1]
                  simp [hs]
                · intro hs
                  rw [← h1] at hs ⊢
                  by_cases hi : req.includeSizes = true
                  · rw [if_pos hi] at hs
                    simp [STANDARD_SIZES] at hs
                  · simp only [Bool.not_eq_true] at hi
                    simp [hi]
  · unfold createItem
    dsimp only
    split
    · exact ⟨rfl, rfl⟩
    · split
      · exact ⟨rfl, rfl⟩
      · split
        · exact ⟨rfl, rfl⟩
        · split
          · exact ⟨rfl, rfl⟩
          · split
            · exact ⟨rfl, rfl⟩
            next hno =>
              exact absurd (by simp [hinc]; exact htw) hno
  · unfold applyPatch at hok
    dsimp only at hok
    constructor
    · intro hip
      cases htp : patch.twoXlPrice with
      | none =>
        rw [htp] at hok
        dsimp only at hok
        have hu := (Except.ok.injEq _ _).mp hok
        rw [← hu, applyFlags_twoXl]
        simp [applySizesToggle, hip]
      | some pi =>
        rw [htp] at hok
        dsimp only at hok
        rw [if_pos (by rw [applyFlags_sizes]; simp [applySizesToggle, hip])] at hok
        exact absurd hok (by simp)
    · intro hcur hs
      cases htp : patch.twoXlPrice with
      | none =>
        rw [htp] at hok
        dsimp only at hok
        have hu := (Except.ok.injEq _ _).mp hok
        rw [← hu] at hs ⊢
        rw [applyFlags_sizes] at hs
        rw [applyFlags_twoXl]
        unfold applySizesToggle at hs ⊢
        cases hip : patch.includeSizes with
        | none =>
          rw [hip] at hs
          dsimp only at hs ⊢
          exact hcur hs
        | some b =>
          rw [hip] at hs
          cases b with
          | false => simp
          | true => simp [STANDARD_SIZES] at hs
      | some pi =>
        rw [htp] at hok
        dsimp only at hok
        split at hok
        next hcond => exact absurd hok (by simp)
        next hcond =>
          split at hok
          · exact absurd hok (by simp)
          · have hu := (Except.ok.injEq _ _).mp hok
            rw [← hu] at hs
            exact absurd (by simpa using hs) hcond
  · obtain ⟨pi, hpi⟩ := Option.ne_none_iff_exists.mp htw
    unfold applyPatch
    dsimp only
    rw [← hpi]
    dsimp only
    rw [if_pos (by rw [applyFlags_sizes]; simp [applySizesToggle, hinc, hsz])]
  · unfold updateItem at herr ⊢
    dsimp only at herr ⊢
    by_cases h1 : jsTrim itemId = ""
    · rw [if_pos h1]
    · rw [if_neg h1] at herr ⊢
      by_cases h2 : patch.includeSizes = none ∧ patch.allowInitials = none ∧
          patch.paused = none ∧ patch.twoXlPrice = none
      · rw [if_pos h2]
      · rw [if_neg h2] at herr ⊢
        cases hgo : updateGo patch (jsTrim itemId) items with
        | none => rfl
        | some p =>
          rw [hgo] at herr
          dsimp only at herr ⊢
          exact updateGo_error_frame patch (jsTrim itemId) items p.1 p.2
            (by rw [hgo]) e herr

/-- A sizeless creation request that nevertheless supplies a 2XL override. -/
def reqBadCreate : CreateReq :=
  { name := "Tee", price := some 20, imageDataUrl := "data:image/png;base64,AAAA",
    includeSizes := false, allowInitials := false, twoXlPrice := some (.val (some 30)) }

/-- Witness for C8: creating a sizeless item with a 2XL override is rejected
with status 400 and the catalog is unchanged. -/
theorem catalog_twoXl_invariant_witness :
    errStatus (createItem reqBadCreate [] "i1" "T" (.ok "/uploads/i1.png")).1 = some 400 ∧
    (createItem reqBadCreate [] "i1" "T" (.ok "/uploads/i1.png")).2 = [] :=
  (catalog_twoXl_invariant reqBadCreate [] "i1" "T" (.ok "/uploads/i1.png") "x"
    ⟨none, none, none, none⟩).2.1 rfl (by decide)

/-- JS `||` with a nonblank default is idempotent. -/
theorem jsOrO_idem (v : Option String) (d1 d2 : String) (hd : d1 ≠ "") :
    jsOrO (jsOrO v d1) d2 = jsOrO v d1 := by
  unfold jsOrO
  cases v with
  | none => simp [hd]
  | some s => by_cases hs : s = "" <;> simp [hs, hd]

/-- JS `||` against the same fallback absorbs. -/
theorem jsOrS_absorb (a b : String) : jsOrS (jsOrS a b) b = jsOrS a b := by
  unfold jsOrS
  by_cases ha : a = "" <;> by_cases hb : b = "" <;> simp [ha, hb]

/-- Re-running the fulfill update on an already-updated order changes nothing
when the first update used a nonblank timestamp and acting email. -/
theorem updateFulfill_idem (users : List User) (o : Order) (e1 t1 e2 t2 : String)
    (ht : t1 ≠ "") (he : e1 ≠ "") :
    updateFulfill users (updateFulfill users o e1 t1) e2 t2 =
      updateFulfill users o e1 t1 := by
  unfold updateFulfill fbInit
  dsimp only
  rw [jsOrS_absorb, jsOrO_idem _ _ _ ht, jsOrO_idem _ _ _ he]

/-- Every order returned by a successful fulfill pass is marked fulfilled. -/
theorem fulfillGo_fulfilled (users : List User) (oid e t : String) :
    ∀ (orders : List Order) (o : Order) (l : List Order),
      fulfillGo users oid e t orders = some (o, l) → o.fulfilled = true := by
  intro orders
  induction orders with
  | nil => intro o l h; simp [fulfillGo] at h
  | cons x rest ih =>
    intro o l h
    unfold fulfillGo at h
    by_cases hid : (x.id == oid) = true
    · rw [if_pos hid] at h
      obtain ⟨h1, _⟩ := Prod.mk.injEq .. ▸ (Option.some.injEq _ _).mp h
      rw [← h1]
      rfl
    · rw [if_neg hid] at h
      cases hgo : fulfillGo users oid e t rest with
      | none => rw [hgo] at h; simp at h
      | some p =>
        rw [hgo] at h
        dsimp only [Option.map] at h
        obtain ⟨h1, _⟩ := Prod.mk.injEq .. ▸ (Option.some.injEq _ _).mp h
        rw [← h1]
        exact ih p.1 p.2 (by rw [hgo])

/-- Re-fulfilling the collection produced by a successful fulfill pass finds
the same order and leaves everything unchanged. -/
theorem fulfillGo_idem (users : List User) (oid e1 t1 e2 t2 : String)
    (ht : t1 ≠ "") (he : e1 ≠ "") :
    ∀ (orders : List Order) (o1 : Order) (l1 : List Order),
      fulfillGo users oid e1 t1 orders = some (o1, l1) →
      fulfillGo users oid e2 t2 l1 = some (o1, l1) := by
  intro orders
  induction orders with
  | nil => intro o1 l1 h; simp [fulfillGo] at h
  | cons o rest ih =>
    intro o1 l1 h
    unfold fulfillGo at h
    by_cases hid : (o.id == oid) = true
    · rw [if_pos hid] at h
      obtain ⟨h1, h2⟩ := Prod.mk.injEq .. ▸ (Option.some.injEq _ _).mp h
      rw [← h2, ← h1]
      unfold fulfillGo
      have hid1 : ((updateFulfill users o e1 t1).id == oid) = true := by
        simpa [updateFulfill] using hid
      rw [if_pos hid1]
      rw [updateFulfill_idem users o e1 t1 e2 t2 ht he]
    · rw [if_neg hid] at h
      cases hgo : fulfillGo users oid e1 t1 rest with
      | none => rw [hgo] at h; simp at h
      | some p =>
        rw [hgo] at h
        dsimp only [Option.map] at h
        obtain ⟨h1, h2⟩ := Prod.mk.injEq .. ▸ (Option.some.injEq _ _).mp h
        rw [← h2]
        unfold fulfillGo
        rw [if_neg hid]
        rw [ih p.1 p.2 (by rw [hgo])]
        dsimp only [Option.map]
        rw [h1]

/-- C4: fulfillment is idempotent with first-write-wins semantics — given a
successful fulfill call with a nonblank timestamp and acting email, fulfilling
the same order again (with any later timestamp or acting email) succeeds,
returns the identical order with the original `fulfilledAt`/`fulfilledBy`,
leaves the collection unchanged, and the order stays fulfilled (there is no
transition out of the fulfilled state). -/
theorem fulfill_idempotent (users : List User) (orders : List Order)
    (oid e1 t1 e2 t2 : String) (o1 : Order) (orders1 : List Order)
    (h1 : fulfillOrder users orders oid e1 t1 = (.ok o1, orders1))
    (ht : t1 ≠ "") (he : e1 ≠ "") :
    fulfillOrder users orders1 oid e2 t2 = (.ok o1, orders1) ∧ o1.fulfilled = true := by
  unfold fulfillOrder at h1 ⊢
  dsimp only at h1 ⊢
  by_cases hz : jsTrim oid = ""
  · rw [if_pos hz] at h1
    exact (err_pair_ne_ok h1).elim
  · rw [if_neg hz] at h1
    rw [if_neg hz]
    cases hgo : fulfillGo users (jsTrim oid) e1 t1 orders with
    | none =>
      rw [hgo] at h1
      exact (err_pair_ne_ok h1).elim
    | some p =>
      obtain ⟨po, pl⟩ := p
      rw [hgo] at h1
      dsimp only at h1
      obtain ⟨ho1, hl1⟩ := Prod.mk.injEq .. ▸ h1
      replace ho1 := (Except.ok.injEq _ _).mp ho1
      have hgo2 := fulfillGo_idem users (jsTrim oid) e1 t1 e2 t2 ht he orders po pl hgo
      rw [ho1, hl1] at hgo2
      rw [hgo2]
      refine ⟨rfl, ?_⟩
      rw [← ho1]
      exact fulfillGo_fulfilled users (jsTrim oid) e1 t1 orders po pl hgo

/-- A not-yet-fulfilled stored order. -/
def ord0 : Order :=
  { id := "o1", itemId := "torch-hat", itemName := "Torch Hat",
    includeInitials := false, selectedSize := none, unitPrice := 25,
    totalPrice := 25, quantity := 1, venmoAgreed := true, userId := "u2",
    userName := "Ann Lee", userInitials := "AL", userEmail := "ann@x.co",
    fulfilled := false, fulfilledAt := none, fulfilledBy := none, createdAt := "c" }

/-- The same order after the first fulfill call. -/
def ord1 : Order :=
  { ord0 with
    fulfilled := true
    fulfilledAt := some "T1"
    fulfilledBy := some "own@x.co" }

/-- Witness for C4: after a first fulfill at time `T1`, a second fulfill with a
different time and email returns the identical record and collection. -/
theorem fulfill_idempotent_witness :
    fulfillOrder [] [ord1] "o1" "e2@x.co" "T2" = (.ok ord1, [ord1]) ∧
    ord1.fulfilled = true :=
  fulfill_idempotent [] [ord0] "o1" "own@x.co" "T1" "e2@x.co" "T2" ord1 [ord1]
    rfl (by decide) (by decide)

/-- A list left fixed by `dropWhile` has a head that fails the predicate. -/
theorem dropWhile_cons_eq_self {p : Char → Bool} {c : Char} {rest : List Char}
    (h : (c :: rest).dropWhile p = c :: rest) : p c = false := by
  by_contra hc
  rw [Bool.not_eq_false] at hc
  rw [List.dropWhile_cons_of_pos hc] at h
  have hlen := congrArg List.length h
  have hle := (List.dropWhile_sublist (l := rest) p).length_le
  simp only [List.length_cons] at hlen
  omega

/-- `dropWhile` is the identity on lists all of whose elements fail the
predicate. -/
theorem dropWhile_of_all_neg {p : Char → Bool} :
    ∀ l : List Char, l.all (fun c => !p c) = true → l.dropWhile p = l := by
  intro l h
  cases l with
  | nil => rfl
  | cons c t =>
    rw [List.all_cons, Bool.and_eq_true] at h
    have hpc : p c = false := by simpa using h.1
    simp [List.dropWhile_cons, hpc]

/-- The JS trim is idempotent. -/
theorem trimChars_idem (l : List Char) : trimChars (trimChars l) = trimChars l := by
  unfold trimChars dropTrail
  have hm : (l.dropWhile isWsB).dropWhile isWsB = l.dropWhile isWsB :=
    List.dropWhile_idempotent isWsB l
  set m := l.dropWhile isWsB with hmdef
  set d := m.reverse.dropWhile isWsB with hddef
  have htd : d.reverse.dropWhile isWsB = d.reverse := by
    obtain ⟨s, hs⟩ := List.dropWhile_suffix (l := m.reverse) isWsB
    have hm2 : m = d.reverse ++ s.reverse := by
      calc m = m.reverse.reverse := (List.reverse_reverse m).symm
        _ = (s ++ d).reverse := by rw [hs]
        _ = d.reverse ++ s.reverse := List.reverse_append ..
    cases hT : d.reverse with
    | nil => rfl
    | cons c t2 =>
      have hfix : (c :: (t2 ++ s.reverse)).dropWhile isWsB = c :: (t2 ++ s.reverse) := by
        rw [← List.cons_append, ← hT, ← hm2]
        exact hm
      have hpc : isWsB c = false := dropWhile_cons_eq_self hfix
      simp [List.dropWhile_cons, hpc]
  rw [htd, List.reverse_reverse, hddef, List.dropWhile_idempotent]

/-- `jsTrim` is idempotent. -/
theorem jsTrim_idem (s : String) : jsTrim (jsTrim s) = jsTrim s := by
  unfold jsTrim
  exact congrArg String.mk (trimChars_idem s.data)

/-- Uppercase letters are not whitespace. -/
theorem upperAlpha_not_ws {c : Char} (h : upperAlpha c = true) : isWsB c = false := by
  simp only [upperAlpha, decide_eq_true_eq] at h
  simp only [isWsB, decide_eq_false_iff_not]
  omega

/-- Uppercasing fixes an uppercase letter. -/
theorem upChar_of_upperAlpha {c : Char} (h : upperAlpha c = true) : upChar c = c := by
  simp only [upperAlpha, decide_eq_true_eq] at h
  unfold upChar
  rw [if_neg (by omega)]

/-- Uppercasing fixes an all-uppercase list. -/
theorem map_upChar_all (l : List Char) (h : l.all upperAlpha = true) :
    l.map upChar = l := by
  induction l with
  | nil => rfl
  | cons c t ih =>
    rw [List.all_cons, Bool.and_eq_true] at h
    rw [List.map_cons, upChar_of_upperAlpha h.1, ih h.2]

/-- `trimChars` fixes an all-uppercase list. -/
theorem trimChars_of_upper (l : List Char) (h : l.all upperAlpha = true) :
    trimChars l = l := by
  have hws : ∀ x ∈ l, !isWsB x := by
    intro x hx
    rw [List.all_eq_true] at h
    simpa using upperAlpha_not_ws (h x hx)
  unfold trimChars dropTrail
  rw [dropWhile_of_all_neg l (List.all_eq_true.mpr (by simpa using hws)),
    dropWhile_of_all_neg l.reverse (List.all_eq_true.mpr (by
      intro x hx
      exact by simpa using hws x (List.mem_reverse.mp hx))),
    List.reverse_reverse]

/-- The source's `normalizeInitials` is idempotent on its own output. -/
theorem normalizeInitials_idem (s t : String)
    (h : normalizeInitials s = some t) : normalizeInitials t = some t := by
  unfold normalizeInitials at h ⊢
  by_cases hv : validInitials (jsUpper (jsTrim s)) = true
  · rw [if_pos hv] at h
    have ht : t = jsUpper (jsTrim s) := ((Option.some.injEq _ _).mp h).symm
    have hvt : validInitials t = true := by rw [ht]; exact hv
    have hall : t.data.all upperAlpha = true := by
      have h2 := hvt
      unfold validInitials at h2
      rw [Bool.and_eq_true] at h2
      exact h2.2
    have htrim : jsTrim t = t := by
      unfold jsTrim
      rw [trimChars_of_upper t.data hall]
    have hupper : jsUpper t = t := by
      unfold jsUpper
      rw [map_upChar_all t.data hall]
    rw [htrim, hupper, if_pos hvt]
  · rw [if_neg hv] at h
    exact absurd h (by simp)

/-- The login back-fill always produces a complete profile. -/
theorem backfillProfile_complete (u : User) (e : String) :
    profileIsComplete (backfillProfile u e) = true := by
  unfold profileIsComplete backfillProfile
  dsimp only
  rw [Bool.and_eq_true, Bool.and_eq_true]
  refine ⟨⟨?_, ?_⟩, ?_⟩
  · rw [decide_eq_true_eq]
    set T := jsTrim (jsOrS (jsOrS u.firstName
      (profileSuggestion (jsOrS u.name e)).1) "Club") with hT
    by_cases hX : T = ""
    · rw [hX]
      decide
    · have h1 : jsOrS T "Club" = T := by unfold jsOrS; rw [if_neg hX]
      rw [h1, hT, jsTrim_idem, ← hT]
      exact hX
  · rw [decide_eq_true_eq]
    set T := jsTrim (jsOrS (jsOrS u.lastName
      (profileSuggestion (jsOrS u.name e)).2.1) "Member") with hT
    by_cases hX : T = ""
    · rw [hX]
      decide
    · have h1 : jsOrS T "Member" = T := by unfold jsOrS; rw [if_neg hX]
      rw [h1, hT, jsTrim_idem, ← hT]
      exact hX
  · cases h1 : normalizeInitials u.initials with
    | some i =>
      simp only [Option.orElse, h1, Option.getD]
      exact Option.isSome_iff_exists.mpr ⟨i, normalizeInitials_idem _ _ h1⟩
    | none =>
      cases h2 : normalizeInitials (buildInitials _ _) with
      | some j =>
        simp only [Option.orElse, h1, h2, Option.getD]
        exact Option.isSome_iff_exists.mpr ⟨j, normalizeInitials_idem _ _ h2⟩
      | none =>
        simp only [Option.orElse, h1, h2, Option.getD]
        decide

/-- Changing only the approval fields does not affect profile completeness. -/
theorem profileIsComplete_approval_irrelevant (x : User) (b : Bool)
    (y z : Option String) :
    profileIsComplete { x with approved := b, approvedAt := y, approvedBy := z } =
      profileIsComplete x := rfl

/-- The login mutation always yields an approved user. -/
theorem loginUpdate_approved (e : String) (u0 : User) (now : String) :
    (loginUpdate e u0 now).approved = true := by
  unfold loginUpdate
  dsimp only
  by_cases hc : profileIsComplete { u0 with email := e } = true
  · rw [if_pos hc]
    by_cases ha : ({ u0 with email := e } : User).approved = true
    · rw [if_pos ha]; exact ha
    · rw [if_neg ha]
  · rw [if_neg hc]
    by_cases ha : (backfillProfile { u0 with email := e } e).approved = true
    · rw [if_pos ha]; exact ha
    · rw [if_neg ha]

/-- The login mutation always yields a complete profile. -/
theorem loginUpdate_complete (e : String) (u0 : User) (now : String) :
    profileIsComplete (loginUpdate e u0 now) = true := by
  unfold loginUpdate
  dsimp only
  by_cases hc : profileIsComplete { u0 with email := e } = true
  · rw [if_pos hc]
    by_cases ha : ({ u0 with email := e } : User).approved = true
    · rw [if_pos ha]; exact hc
    · rw [if_neg ha]
      rw [profileIsComplete_approval_irrelevant]
      exact hc
  · rw [if_neg hc]
    by_cases ha : (backfillProfile { u0 with email := e } e).approved = true
    · rw [if_pos ha]; exact backfillProfile_complete { u0 with email := e } e
    · rw [if_neg ha]
      rw [profileIsComplete_approval_irrelevant]
      exact backfillProfile_complete { u0 with email := e } e

/-- Shape of a successful login pass over the user collection: the returned
user is the login mutation of some stored record and is itself stored in the
written-back collection. -/
theorem loginGo_shape (e now : String) :
    ∀ (users : List User) (p : User × List User), loginGo e now users = some p →
      (∃ u0, p.1 = loginUpdate e u0 now) ∧ p.1 ∈ p.2 := by
  intro users
  induction users with
  | nil => intro p h; simp [loginGo] at h
  | cons u rest ih =>
    intro p h
    unfold loginGo at h
    by_cases hm : (jsLower (jsTrim u.email) == e) = true
    · rw [if_pos hm] at h
      have hp := (Option.some.injEq _ _).mp h
      rw [← hp]
      exact ⟨⟨u, rfl⟩, List.mem_cons_self _ _⟩
    · rw [if_neg hm] at h
      cases hgo : loginGo e now rest with
      | none => rw [hgo] at h; simp at h
      | some q =>
        rw [hgo] at h
        dsimp only [Option.map] at h
        have hp := (Option.some.injEq _ _).mp h
        obtain ⟨hq, hmem⟩ := ih q hgo
        rw [← hp]
        exact ⟨hq, List.mem_cons_of_mem _ hmem⟩

/-- C10: every successful login in the email variant leaves the stored user
record force-approved (`approved = true`) with a complete (back-filled)
profile, and that record is present in the written-back collection — no
approval step can block a user who can log in. -/
theorem login_force_approves (email : String) (users : List User) (now : String)
    (u : User) (users2 : List User)
    (h : login email users now = .ok (u, users2)) :
    u.approved = true ∧ profileIsComplete u = true ∧ u ∈ users2 := by
  unfold login at h
  cases hne : normalizeEmail email with
  | none => rw [hne] at h; exact absurd h (by simp)
  | some e =>
    rw [hne] at h
    dsimp only at h
    cases hgo : loginGo e now users with
    | none => rw [hgo] at h; exact absurd h (by simp)
    | some p =>
      rw [hgo] at h
      dsimp only at h
      have hp := (Except.ok.injEq _ _).mp h
      obtain ⟨⟨u0, hu0⟩, hmem⟩ := loginGo_shape e now users p hgo
      rw [hp] at hu0 hmem
      dsimp only at hu0 hmem
      refine ⟨?_, ?_, hmem⟩
      · rw [hu0]; exact loginUpdate_approved e u0 now
      · rw [hu0]; exact loginUpdate_complete e u0 now

/-- An account stored with an empty profile and `approved = false`. -/
def demoU0 : User :=
  { id := "u1", email := "bob@x.co", firstName := "", lastName := "",
    initials := "", name := "", approved := false, approvedAt := none,
    approvedBy := none, createdAt := "c" }

/-- The record the login handler writes back for that account. -/
def demoU1 : User :=
  { demoU0 with
    email := "bob@x.co"
    firstName := "bob@x.co"
    lastName := "Member"
    initials := "BM"
    name := "bob@x.co Member"
    approved := true
    approvedAt := some "T1"
    approvedBy := some ownerEmail }

/-- Witness for C10: logging in the unapproved, incomplete account yields the
force-approved, back-filled stored record. -/
theorem login_force_approves_witness :
    demoU1.approved = true ∧ profileIsComplete demoU1 = true ∧ demoU1 ∈ [demoU1] :=
  login_force_approves "Bob@x.co " [demoU0] "T1" demoU1 [demoU1] rfl
